import Mathlib

/-!
Verification of the PyClaw message intake-and-dispatch pipeline.

Shallow embedding of the core of the repository:
  - `database.py`  : message store (SQLite table `messages`, PRIMARY KEY (id, chat_jid)),
    `Database.store_message` (INSERT OR REPLACE) and `Database.get_new_messages`
    (WHERE timestamp > ? AND chat_jid IN (...) ORDER BY timestamp, then a Python-side
    filter dropping rows whose content starts with the reply marker).
  - `main.py`      : `process_message` (command interpreter) and `message_loop`
    (watermark polling loop), plus the state files (sessions, last_timestamp).
  - `agent.py`     : `run_agent` / `_query_claude`, abstracted as an opaque engine
    oracle returning an `AgentResponse`; `build_prompt`.
  - `config.py`    : the constants (trigger pattern, command literals).

Text is embedded as `List Char`.  Python `str` slicing, `strip`, `lower`, `find`,
`startswith` are modelled character-wise below.  SQLite TEXT comparison (memcmp on
UTF-8 bytes) is modelled by the lexicographic order on `List Char`; the two agree on
the ASCII timestamps the program produces.  The `SELECT ... WHERE timestamp > ?
AND chat_jid IN (...) ORDER BY timestamp` query is modelled after the plan SQLite
picks on this schema: one `idx_messages_chat` index search per IN value, visiting
each chat's rows in rowid (insertion) order, followed by a temp B-tree for the
ORDER BY, modelled as a stable sort of that visit order.  SQLite leaves the
relative order of equal ORDER BY keys unspecified; under this plan rows with equal
timestamps come back grouped by chat, not in global insertion order.
-/

namespace PyClaw

/-- Text: Python strings, SQLite TEXT values, embedded as character lists. -/
abbrev Str := List Char

/-- Coerce a Lean string literal to the embedded text type. -/
def str (s : String) : Str := s.data

/-- Python whitespace characters recognised by `str.strip()`. -/
def isPySpace (c : Char) : Bool :=
  c = ' ' || c = '\t' || c = '\n' || c = '\x0d' || c = '\x0b' || c = '\x0c'

/-- Python `s.strip()`: drop leading and trailing whitespace. -/
def pyStrip (s : Str) : Str :=
  ((s.dropWhile isPySpace).reverse.dropWhile isPySpace).reverse

/-- Python `s.lower()` (the program only lowercases ASCII command text). -/
def lowerStr (s : Str) : Str := s.map Char.toLower

/-- Python `s.find(pat)` restricted to a found result: index of the first
occurrence of `pat` in `s`, or `none` when absent. -/
def findSub : Str → Str → Option Nat
  | [], pat => if pat = [] then some 0 else none
  | c :: rest, pat =>
    if pat.isPrefixOf (c :: rest) then some 0 else (findSub rest pat).map (· + 1)

/-- Python `pat in s`. -/
def containsSub (s pat : Str) : Bool := (findSub s pat).isSome

/-- Regex word character (`\w` over the ASCII text the program handles). -/
def isWordChar (c : Char) : Bool := c.isAlphanum || c = '_'

-- === database.py ===

/-- Row of the `messages` table, also the `Message` dataclass of `database.py`. -/
structure Message where
  id : Str
  chat_jid : Str
  sender : Str
  sender_name : Str
  content : Str
  timestamp : Str
  is_from_me : Bool
deriving DecidableEq

/-- Row of the `chats` table (observability metadata only). -/
structure ChatRow where
  jid : Str
  name : Str
  last_message_time : Str
deriving DecidableEq

/-- The SQLite database: both tables, rows in rowid (insertion) order. -/
structure DB where
  chats : List ChatRow
  messages : List Message
deriving DecidableEq

/-- The empty database right after `_create_tables`. -/
def emptyDB : DB := ⟨[], []⟩

/-- Key predicate of the `messages` PRIMARY KEY (id, chat_jid). -/
def sameKey (a b : Message) : Bool := a.id = b.id && a.chat_jid = b.chat_jid

/-- `Database.store_message`: INSERT OR REPLACE into `chats` and `messages`.
REPLACE deletes any row with the same primary key and appends the new row with a
fresh rowid, so the new row ends up last in insertion order. -/
def store_message (db : DB) (m : Message) : DB :=
  { chats := db.chats.filter (fun c => !(c.jid = m.chat_jid : Bool)) ++
      [⟨m.chat_jid, m.chat_jid, m.timestamp⟩],
    messages := db.messages.filter (fun r => !sameKey r m) ++ [m] }

/-- Ascending-timestamp comparison used by `ORDER BY timestamp`. -/
def tsLe (a b : Message) : Prop := a.timestamp ≤ b.timestamp

instance : DecidableRel tsLe := fun a b =>
  inferInstanceAs (Decidable (a.timestamp ≤ b.timestamp))

instance : IsTotal Message tsLe := ⟨fun a b => le_total a.timestamp b.timestamp⟩

instance : IsTrans Message tsLe := ⟨fun _ _ _ h h' => le_trans h h'⟩

/-- Row test of the Python-side `exclude_sender_prefix` filter inside
`get_new_messages`: keep the row unless its content starts with the given
marker. -/
def passMark (exclContent : Option Str) (r : Message) : Bool :=
  match exclContent with
  | some p => !p.isPrefixOf r.content
  | none => true

/-- `Database.get_new_messages`: rows with `timestamp > since` from the given
chats, ordered ascending by timestamp, then the Python loop drops rows whose
content starts with `exclContent` when given (parameter
`exclude_sender_prefix` in the source).  The row order follows the query plan
SQLite uses for this schema: the `chat_jid IN (...)` search visits the
(distinct) IN values one by one, reading each chat's rows through
`idx_messages_chat` in rowid = insertion order, and the `ORDER BY timestamp`
temp B-tree is a stable sort of that visit order.  Equal-timestamp rows from
different chats therefore come back grouped by chat; SQLite gives no
insertion-order guarantee for ORDER BY ties. -/
def get_new_messages (db : DB) (chat_jids : List Str) (since : Str)
    (exclContent : Option Str) : List Message :=
  if chat_jids.isEmpty then []
  else
    let rows := chat_jids.dedup.flatMap (fun c =>
      db.messages.filter
        (fun r => decide (since < r.timestamp) && decide (r.chat_jid = c)))
    let sorted := rows.insertionSort tsLe
    sorted.filter (passMark exclContent)

-- === config.py ===

/-- `CLEAR_COMMAND` from `config.py`. -/
def CLEAR_COMMAND : Str := str "/clear"

/-- `PERSONALITY_COMMAND` from `config.py`. -/
def PERSONALITY_COMMAND : Str := str "/personality"

/-- The reply marker `f"*{ASSISTANT_NAME}:*"` prefixed to every outgoing reply and
used as `exclude_sender_prefix` in the polling query. -/
def replyMark (name : Str) : Str := str "*" ++ name ++ str ":*"

/-- `TRIGGER_PATTERN.match(content)`: the compiled regex is
`^@{ASSISTANT_NAME}\b` with `re.IGNORECASE`.  The literal `@name` must match at
the start of the (already stripped) content, case-insensitively, and be followed
by a word boundary.  The character before the boundary is the last character of
the matched literal, so the boundary holds iff the wordness of that character
differs from the wordness of the following character (end of string counts as
non-word). -/
def triggerHit (name c : Str) : Bool :=
  let pat := '@' :: name
  (lowerStr pat).isPrefixOf (lowerStr c) &&
    match c.drop (pat.length - 1) with
    | [] => false
    | p :: rest =>
      isWordChar p != (match rest with | [] => false | n :: _ => isWordChar n)

-- === agent.py ===

/-- The `AgentResponse` dataclass of `agent.py`. -/
structure AgentResponse where
  success : Bool
  result : Option Str
  session_id : Option Str
  error : Option Str := none

/-- Python truthiness of an `Optional[str]`: `None` and the empty string are
falsy. -/
def truthy : Option Str → Bool
  | none => false
  | some s => !s.isEmpty

/-- `build_prompt` from `agent.py`. -/
def build_prompt (message_content sender_name group_name : Str) : Str :=
  str "[WhatsApp message from: " ++ group_name ++ str "]\n[Sender: " ++
    sender_name ++ str "]\n\n" ++ message_content ++
    str "\n\nReply concisely. This will be sent to WhatsApp."

-- === persona document (CLAUDE.md) templates ===

/-- Piece of the CLAUDE.md template before the instructions. -/
def personaHeader : Str := str "# Assistant\n\n"

/-- Piece of the CLAUDE.md template between the instructions and the Memories
section body (fixed tool-usage text shared by `main.py` and `agent.py`). -/
def personaMiddle : Str :=
  str "\n\n## What You Can Do\n\nYou have tools to work with files in this folder:\n- **Write tool**: Save notes, lists, or any data to files (e.g., `notes.md`, `todos.txt`)\n- **Read tool**: Read files you\x27ve previously saved\n- **WebSearch tool**: Look up current information online\n\nWhen the user asks you to save, remember, or keep track of something — use the Write tool to create a file.\n\n**REQUIRED:** After creating any file, you MUST use the Edit tool to add it to the \"Saved Files\" section in this CLAUDE.md file.\n\n## Memories\n\n"

/-- Piece of the CLAUDE.md template between the Memories body and the Saved
Files body. -/
def personaSavedMark : Str := str "\n\n## Saved Files\n\n"

/-- The `new_content` f-string of the `/personality` branch of `main.py`. -/
def renderPersona (instr mem sf : Str) : Str :=
  personaHeader ++ instr ++ personaMiddle ++ mem ++ personaSavedMark ++ sf ++ str "\n"

/-- Placeholder Memories body used when no prior section exists. -/
def memDefault : Str := str "<!-- Persistent notes about this user/chat -->"

/-- Placeholder Saved Files body used when no prior section exists. -/
def sfDefault : Str :=
  str "<!-- After creating a file, add it here: \"- filename.txt — description\" -->"

/-- `DEFAULT_CLAUDE_MD` of `agent.py`, written by `run_agent` when the group has
no CLAUDE.md yet; textually it is the persona template filled with the default
instructions and the placeholder section bodies. -/
def DEFAULT_CLAUDE_MD : Str :=
  renderPersona (str "You are a helpful assistant on WhatsApp. Be concise.")
    memDefault sfDefault

/-- Section heading marker for Memories. -/
def MEM_MARK : Str := str "## Memories"

/-- Section heading marker for Saved Files. -/
def SF_MARK : Str := str "## Saved Files"

-- === main.py: process_message ===

/-- Value of `registered_groups[jid]` (the fields the core reads). -/
structure Group where
  name : Str
  folder : Str
deriving DecidableEq

/-- Association-list deletion, modelling `del d[k]` on a Python dict. -/
def eraseKey (l : List (Str × Str)) (k : Str) : List (Str × Str) :=
  l.filter (fun p => !(p.1 = k : Bool))

/-- Association-list update, modelling `d[k] = v` on a Python dict. -/
def setKey (l : List (Str × Str)) (k v : Str) : List (Str × Str) :=
  eraseKey l k ++ [(k, v)]

/-- Observable outcome of one `process_message` call: the updated session table,
the updated per-group CLAUDE.md files, the transport sends, the reasoning-engine
invocations `(prompt, group_folder, session_id)` in order, and whether
`save_state` ran inside the call. -/
structure Effects where
  sessions : List (Str × Str)
  files : List (Str × Str)
  sent : List (Str × Str)
  engineCalls : List (Str × Str × Option Str)
  saved : Bool
deriving DecidableEq

/-- `process_message` from `main.py`, as a pure function.  The reasoning engine
(`run_agent`, whose SDK exceptions are caught inside `_query_claude` and turned
into a failed `AgentResponse`) is an oracle `engine prompt folder session_id`.
The per-group CLAUDE.md files are the map `files` (folder to content); a missing
key is a missing file.  `run_agent` creating the default CLAUDE.md when missing
is part of the trigger branch. -/
def process_message (name : Str) (registered_groups : List (Str × Group))
    (sessions files : List (Str × Str))
    (engine : Str → Str → Option Str → AgentResponse)
    (msg : Message) : Effects :=
  match registered_groups.lookup msg.chat_jid with
  | none => ⟨sessions, files, [], [], false⟩
  | some group =>
    let c := pyStrip msg.content
    let folder := group.folder
    if lowerStr c = CLEAR_COMMAND then
      let hadSession := (sessions.lookup folder).isSome
      ⟨if hadSession then eraseKey sessions folder else sessions, files,
        [(msg.chat_jid, replyMark name ++ str " Conversation cleared! Starting fresh.")],
        [], hadSession⟩
    else if PERSONALITY_COMMAND.isPrefixOf (lowerStr c) then
      let new_instructions := pyStrip (c.drop PERSONALITY_COMMAND.length)
      if new_instructions.isEmpty then
        ⟨sessions, files,
          [(msg.chat_jid, replyMark name ++ str " Usage: /personality <instructions>")],
          [], false⟩
      else
        let (memories, saved_files) :=
          match files.lookup folder with
          | none => (memDefault, sfDefault)
          | some existing =>
            let m :=
              if containsSub existing MEM_MARK then
                let ms := (findSub existing MEM_MARK).getD 0 + MEM_MARK.length
                let me := if containsSub existing SF_MARK then
                    (findSub existing SF_MARK).getD 0
                  else existing.length
                pyStrip ((existing.take me).drop ms)
              else memDefault
            let s :=
              if containsSub existing SF_MARK then
                pyStrip (existing.drop ((findSub existing SF_MARK).getD 0 + SF_MARK.length))
              else sfDefault
            (m, s)
        ⟨sessions, setKey files folder (renderPersona new_instructions memories saved_files),
          [(msg.chat_jid, replyMark name ++ str " Personality updated!")], [], false⟩
    else if !triggerHit name c then ⟨sessions, files, [], [], false⟩
    else
      let prompt_text := pyStrip (c.drop (1 + name.length))
      if prompt_text.isEmpty then ⟨sessions, files, [], [], false⟩
      else
        let prompt := build_prompt prompt_text msg.sender_name group.name
        let session_id := sessions.lookup folder
        let files1 := match files.lookup folder with
          | none => setKey files folder DEFAULT_CLAUDE_MD
          | some _ => files
        let resp := engine prompt folder session_id
        if resp.success && truthy resp.result then
          ⟨if truthy resp.session_id then setKey sessions folder (resp.session_id.getD [])
            else sessions,
            files1,
            [(msg.chat_jid, replyMark name ++ str " " ++ resp.result.getD [])],
            [(prompt, folder, session_id)], false⟩
        else
          ⟨sessions, files1,
            [(msg.chat_jid, replyMark name ++ str " Sorry, I encountered an error. Please try again.")],
            [(prompt, folder, session_id)], false⟩

-- === main.py: message_loop and ingest ===

/-- In-memory and persisted loop state: the message store, the persisted
watermark `last_timestamp` (saved by `save_state` right after each advance, so
the in-memory and persisted values coincide between steps), and the trace of
`process_message` invocations, each paired with `true` when the call returned
normally and `false` when it raised. -/
structure LoopState where
  db : DB
  last_timestamp : Str
  calls : List (Message × Bool)
deriving DecidableEq

/-- The inner `for msg in messages` loop of `message_loop`: handle each message
in order; on a normal return advance the watermark to the message timestamp; on
an unexpected exception record the failed call and break.  `ok` tells whether
`process_message` returns normally on a given message. -/
def runBatch (ok : Message → Bool) :
    Str → List (Message × Bool) → List Message → Str × List (Message × Bool)
  | wm, calls, [] => (wm, calls)
  | wm, calls, m :: rest =>
    if ok m then runBatch ok m.timestamp (calls ++ [(m, true)]) rest
    else (wm, calls ++ [(m, false)])

/-- The query one poll cycle issues: messages after the current watermark from
the registered chats, excluding the bot reply marker. -/
def queryBatch (name : Str) (jids : List Str) (s : LoopState) : List Message :=
  get_new_messages s.db jids s.last_timestamp (some (replyMark name))

/-- One poll cycle of `message_loop`: skip when no group is registered,
otherwise query the store for messages after the watermark (excluding the bot
reply marker) and run the batch. -/
def pollStep (name : Str) (jids : List Str) (ok : Message → Bool)
    (s : LoopState) : LoopState :=
  if jids.isEmpty then s
  else
    let r := runBatch ok s.last_timestamp s.calls (queryBatch name jids s)
    ⟨s.db, r.1, r.2⟩

/-- `on_whatsapp_message`: store the event when its chat is registered, drop it
otherwise. -/
def ingestStep (jids : List Str) (m : Message) (s : LoopState) : LoopState :=
  if m.chat_jid ∈ jids then ⟨store_message s.db m, s.last_timestamp, s.calls⟩ else s

/-- One observable event of a run: an inbound transport event, or one poll cycle
whose `process_message` outcomes are given by the oracle `ok`. -/
inductive Event where
  | ingest (m : Message)
  | poll (ok : Message → Bool)

/-- Step of the interleaved run. -/
def stepEvent (name : Str) (jids : List Str) : Event → LoopState → LoopState
  | .ingest m => ingestStep jids m
  | .poll ok => pollStep name jids ok

/-- A whole run: fold the events over a starting state. -/
def runEvents (name : Str) (jids : List Str) : List Event → LoopState → LoopState
  | [], s => s
  | e :: es, s => runEvents name jids es (stepEvent name jids e s)

/-- Trace discipline for the amended exactly-once claim: every stored inbound
event arrives while the watermark is still strictly below its timestamp, and
with a timestamp and (id, chat_jid) key fresh for the store. -/
def wfEvents (name : Str) (jids : List Str) : LoopState → List Event → Bool
  | _, [] => true
  | s, .ingest m :: es =>
    (!decide (m.chat_jid ∈ jids) ||
      (decide (s.last_timestamp < m.timestamp) &&
        decide (∀ r ∈ s.db.messages, r.timestamp ≠ m.timestamp ∧ !sameKey r m))) &&
      wfEvents name jids (ingestStep jids m s) es
  | s, .poll ok :: es => wfEvents name jids (pollStep name jids ok s) es

-- === helper lemmas: the query ===

theorem filter_or_perm {α : Type} (q₁ q₂ : α → Bool)
    (hdisj : ∀ a, ¬(q₁ a = true ∧ q₂ a = true)) :
    ∀ l : List α,
      (l.filter q₁ ++ l.filter q₂).Perm (l.filter (fun a => q₁ a || q₂ a))
  | [] => List.Perm.refl _
  | a :: l => by
    rw [List.filter_cons, List.filter_cons, List.filter_cons]
    by_cases h1 : q₁ a = true
    · have h2 : q₂ a = false := by
        rcases Bool.eq_false_or_eq_true (q₂ a) with h | h
        · exact absurd ⟨h1, h⟩ (hdisj a)
        · exact h
      rw [if_pos h1, if_neg (by rw [h2]; exact Bool.false_ne_true),
        if_pos (by rw [h1, Bool.true_or]), List.cons_append]
      exact (filter_or_perm q₁ q₂ hdisj l).cons a
    · have h1f : q₁ a = false := Bool.eq_false_iff.mpr h1
      by_cases h2 : q₂ a = true
      · rw [if_neg h1, if_pos h2, if_pos (by rw [h2, Bool.or_true])]
        exact List.perm_middle.trans ((filter_or_perm q₁ q₂ hdisj l).cons a)
      · have h2f : q₂ a = false := Bool.eq_false_iff.mpr h2
        rw [if_neg h1, if_neg h2,
          if_neg (by rw [h1f, h2f]; exact Bool.false_ne_true)]
        exact filter_or_perm q₁ q₂ hdisj l

theorem chat_scan_perm (l : List Message) (p : Message → Bool) :
    ∀ cs : List Str, cs.Nodup →
      (cs.flatMap (fun c =>
          l.filter (fun r => p r && decide (r.chat_jid = c)))).Perm
        (l.filter (fun r => p r && decide (r.chat_jid ∈ cs)))
  | [], _ => by
    rw [List.flatMap_nil]
    have h0 : l.filter
        (fun r => p r && decide (r.chat_jid ∈ ([] : List Str))) = [] := by
      rw [List.filter_eq_nil_iff]
      intro a _
      simp
    rw [h0]
  | c :: cs, hnd => by
    rw [List.flatMap_cons]
    have hc : c ∉ cs := (List.nodup_cons.mp hnd).1
    have IH := chat_scan_perm l p cs (List.nodup_cons.mp hnd).2
    have hdisj : ∀ a : Message,
        ¬((p a && decide (a.chat_jid = c)) = true ∧
          (p a && decide (a.chat_jid ∈ cs)) = true) := by
      intro a ha
      obtain ⟨ha1, ha2⟩ := ha
      rw [Bool.and_eq_true, decide_eq_true_eq] at ha1 ha2
      exact hc (ha1.2 ▸ ha2.2)
    have hstep := filter_or_perm _ _ hdisj l
    have hcongr : l.filter (fun a =>
        (p a && decide (a.chat_jid = c)) || (p a && decide (a.chat_jid ∈ cs))) =
        l.filter (fun r => p r && decide (r.chat_jid ∈ c :: cs)) := by
      apply List.filter_congr
      intro a _
      have hm : decide (a.chat_jid ∈ c :: cs) =
          (decide (a.chat_jid = c) || decide (a.chat_jid ∈ cs)) := by
        by_cases hq : a.chat_jid = c
        · simp [hq]
        · by_cases hq2 : a.chat_jid ∈ cs <;> simp [hq, hq2]
      rw [hm, Bool.and_or_distrib_left]
    exact ((List.Perm.append_left _ IH).trans hstep).trans
      (hcongr ▸ List.Perm.refl _)

theorem gnm_rows_perm (db : DB) (chat_jids : List Str) (since : Str) :
    (chat_jids.dedup.flatMap (fun c =>
        db.messages.filter
          (fun r => decide (since < r.timestamp) && decide (r.chat_jid = c)))).Perm
      (db.messages.filter
        (fun r => decide (since < r.timestamp) &&
          decide (r.chat_jid ∈ chat_jids))) := by
  have h := chat_scan_perm db.messages (fun r => decide (since < r.timestamp))
    chat_jids.dedup (List.nodup_dedup chat_jids)
  refine h.trans ?_
  have heq : db.messages.filter (fun r => decide (since < r.timestamp) &&
      decide (r.chat_jid ∈ chat_jids.dedup)) =
      db.messages.filter (fun r => decide (since < r.timestamp) &&
        decide (r.chat_jid ∈ chat_jids)) := by
    apply List.filter_congr
    intro a _
    rw [decide_eq_decide.mpr List.mem_dedup]
  rw [heq]

theorem gnm_mem {db : DB} {chat_jids : List Str} {since : Str}
    {exclContent : Option Str} {m : Message} :
    m ∈ get_new_messages db chat_jids since exclContent ↔
      m ∈ db.messages ∧ since < m.timestamp ∧ m.chat_jid ∈ chat_jids ∧
        passMark exclContent m = true := by
  unfold get_new_messages
  by_cases h : chat_jids.isEmpty
  · rw [if_pos h]
    rw [List.isEmpty_iff] at h
    subst h
    simp
  · rw [if_neg h]
    simp only [List.mem_filter, List.mem_insertionSort, List.mem_flatMap,
      List.mem_dedup, decide_eq_true_eq, Bool.and_eq_true]
    constructor
    · intro hx
      obtain ⟨⟨c, hcmem, hdb, hts, hchat⟩, hpass⟩ := hx
      exact ⟨hdb, hts, hchat ▸ hcmem, hpass⟩
    · intro hx
      obtain ⟨hdb, hts, hchat, hpass⟩ := hx
      exact ⟨⟨m.chat_jid, hchat, hdb, hts, rfl⟩, hpass⟩

theorem gnm_pairwise_le (db : DB) (chat_jids : List Str) (since : Str)
    (exclContent : Option Str) :
    (get_new_messages db chat_jids since exclContent).Pairwise tsLe := by
  unfold get_new_messages
  by_cases h : chat_jids.isEmpty
  · rw [if_pos h]; exact List.Pairwise.nil
  · rw [if_neg h]
    exact List.Pairwise.sublist (List.filter_sublist _)
      (List.sorted_insertionSort tsLe _)

theorem gnm_subperm (db : DB) (chat_jids : List Str) (since : Str)
    (exclContent : Option Str) :
    (get_new_messages db chat_jids since exclContent).Subperm db.messages := by
  unfold get_new_messages
  by_cases h : chat_jids.isEmpty
  · rw [if_pos h]; exact List.nil_subperm
  · rw [if_neg h]
    refine List.Subperm.trans ((List.filter_sublist _).subperm) ?_
    refine List.Subperm.trans (List.perm_insertionSort tsLe _).subperm ?_
    exact List.Subperm.trans (gnm_rows_perm db chat_jids since).subperm
      (List.filter_sublist _).subperm

theorem gnm_perm_filter (db : DB) (chat_jids : List Str) (since : Str) :
    (get_new_messages db chat_jids since none).Perm
      (db.messages.filter
        (fun r => decide (since < r.timestamp) &&
          decide (r.chat_jid ∈ chat_jids))) := by
  unfold get_new_messages
  by_cases h : chat_jids.isEmpty
  · rw [if_pos h]
    rw [List.isEmpty_iff] at h
    subst h
    have h0 : db.messages.filter (fun r => decide (since < r.timestamp) &&
        decide (r.chat_jid ∈ ([] : List Str))) = [] := by
      rw [List.filter_eq_nil_iff]
      intro a _
      simp
    rw [h0]
  · rw [if_neg h]
    have hpass : ∀ l : List Message, l.filter (passMark none) = l := by
      intro l; simp [passMark]
    rw [hpass]
    exact (List.perm_insertionSort tsLe _).trans (gnm_rows_perm db chat_jids since)

-- === helper lemmas: the batch run ===

/-- Timestamp the inner loop leaves the watermark at after handling `l`
successfully, starting from `wm`. -/
def lastTs : List Message → Str → Str
  | [], wm => wm
  | m :: l, _ => lastTs l m.timestamp

theorem lastTs_nil (wm : Str) : lastTs [] wm = wm := rfl

theorem lastTs_cons (b : Message) (l : List Message) (wm : Str) :
    lastTs (b :: l) wm = lastTs l b.timestamp := rfl

theorem lastTs_concat (l : List Message) (a : Message) :
    ∀ wm, lastTs (l ++ [a]) wm = a.timestamp := by
  induction l with
  | nil => intro wm; rfl
  | cons b l ih => intro wm; rw [List.cons_append, lastTs_cons, ih]

theorem lastTs_mem (l : List Message) :
    ∀ wm, lastTs l wm = wm ∨ ∃ x ∈ l, lastTs l wm = x.timestamp := by
  induction l with
  | nil => intro wm; exact Or.inl rfl
  | cons b l ih =>
    intro wm
    rw [lastTs_cons]
    rcases ih b.timestamp with heq | ⟨x, hx, heq⟩
    · exact Or.inr ⟨b, List.mem_cons_self b l, heq⟩
    · exact Or.inr ⟨x, List.mem_cons_of_mem b hx, heq⟩

theorem le_lastTs {l : List Message} {wm : Str}
    (h : ∀ x ∈ l, wm ≤ x.timestamp) : wm ≤ lastTs l wm := by
  rcases lastTs_mem l wm with heq | ⟨x, hx, heq⟩
  · rw [heq]
  · rw [heq]; exact h x hx

theorem lastTs_lt {l : List Message} {wm t : Str}
    (hwm : wm < t) (h : ∀ x ∈ l, x.timestamp < t) : lastTs l wm < t := by
  rcases lastTs_mem l wm with heq | ⟨x, hx, heq⟩
  · rw [heq]; exact hwm
  · rw [heq]; exact h x hx

theorem mem_le_lastTs {l : List Message} {wm : Str} {x : Message}
    (hpair : l.Pairwise tsLe) (hx : x ∈ l) : x.timestamp ≤ lastTs l wm := by
  rcases List.eq_nil_or_concat l with rfl | ⟨l', a, rfl⟩
  · cases hx
  · rw [List.concat_eq_append] at hpair hx ⊢
    rw [lastTs_concat]
    rcases List.mem_append.mp hx with hx' | hx'
    · have := (List.pairwise_append.mp hpair).2.2
      exact this x hx' a (List.mem_singleton_self a)
    · rw [List.mem_singleton.mp hx']

theorem runBatch_nil (ok : Message → Bool) (wm : Str) (calls : List (Message × Bool)) :
    runBatch ok wm calls [] = (wm, calls) := rfl

theorem runBatch_cons (ok : Message → Bool) (wm : Str) (calls : List (Message × Bool))
    (b : Message) (rest : List Message) :
    runBatch ok wm calls (b :: rest) =
      if ok b then runBatch ok b.timestamp (calls ++ [(b, true)]) rest
      else (wm, calls ++ [(b, false)]) := rfl

theorem runBatch_failAt (ok : Message → Bool) :
    ∀ (pre : List Message) (wm : Str) (calls : List (Message × Bool))
      (m : Message) (post : List Message),
      (∀ x ∈ pre, ok x = true) → ok m = false →
      runBatch ok wm calls (pre ++ m :: post) =
        (lastTs pre wm, calls ++ pre.map (fun x => (x, true)) ++ [(m, false)])
  | [], wm, calls, m, post, _, hm => by
    rw [List.nil_append, runBatch_cons, if_neg (by rw [hm]; exact Bool.false_ne_true)]
    simp [lastTs_nil]
  | b :: pre, wm, calls, m, post, hpre, hm => by
    have hb : ok b = true := hpre b (List.mem_cons_self b _)
    have hrec := runBatch_failAt ok pre b.timestamp (calls ++ [(b, true)]) m post
      (fun x hx => hpre x (List.mem_cons_of_mem b hx)) hm
    rw [List.cons_append, runBatch_cons, if_pos hb, hrec, lastTs_cons]
    simp

theorem runBatch_allOk (ok : Message → Bool) :
    ∀ (batch : List Message) (wm : Str) (calls : List (Message × Bool)),
      (∀ x ∈ batch, ok x = true) →
      runBatch ok wm calls batch =
        (lastTs batch wm, calls ++ batch.map (fun x => (x, true)))
  | [], wm, calls, _ => by simp [runBatch_nil, lastTs_nil]
  | b :: batch, wm, calls, hall => by
    have hb : ok b = true := hall b (List.mem_cons_self b _)
    have hrec := runBatch_allOk ok batch b.timestamp (calls ++ [(b, true)])
      (fun x hx => hall x (List.mem_cons_of_mem b hx))
    rw [runBatch_cons, if_pos hb, hrec, lastTs_cons]
    simp

theorem exists_first_fail (ok : Message → Bool) :
    ∀ l : List Message,
      (∀ x ∈ l, ok x = true) ∨
        ∃ pre m post, l = pre ++ m :: post ∧ (∀ x ∈ pre, ok x = true) ∧ ok m = false
  | [] => Or.inl (by intro x hx; cases hx)
  | b :: l => by
    by_cases hb : ok b = true
    · rcases exists_first_fail ok l with hall | ⟨pre, m, post, rfl, hpre, hm⟩
      · left
        intro x hx
        rcases List.mem_cons.mp hx with rfl | hx'
        · exact hb
        · exact hall x hx'
      · right
        refine ⟨b :: pre, m, post, rfl, ?_, hm⟩
        intro x hx
        rcases List.mem_cons.mp hx with rfl | hx'
        · exact hb
        · exact hpre x hx'
    · right
      exact ⟨[], b, l, rfl, (by intro x hx; cases hx), Bool.eq_false_iff.mpr hb⟩

theorem lastTs_append (A : List Message) :
    ∀ (B : List Message) (wm : Str), lastTs (A ++ B) wm = lastTs B (lastTs A wm) := by
  induction A with
  | nil => intro B wm; rfl
  | cons a A ih => intro B wm; rw [List.cons_append, lastTs_cons, lastTs_cons, ih]

theorem count_map_true (x : Message) :
    ∀ l : List Message,
      (l.map (fun y => (y, true))).count (x, true) = l.count x
  | [] => rfl
  | b :: l => by
    simp only [List.map_cons, List.count_cons, count_map_true x l]
    congr 1
    by_cases h : b = x
    · subst h; simp
    · simp [h, Prod.ext_iff]

-- === helper lemmas: the loop ===

theorem queryBatch_gt {name : Str} {jids : List Str} {s : LoopState} {x : Message}
    (hx : x ∈ queryBatch name jids s) : s.last_timestamp < x.timestamp :=
  (gnm_mem.mp hx).2.1

theorem queryBatch_pairwise (name : Str) (jids : List Str) (s : LoopState) :
    (queryBatch name jids s).Pairwise tsLe :=
  gnm_pairwise_le _ _ _ _

theorem ingestStep_wm (jids : List Str) (m : Message) (s : LoopState) :
    (ingestStep jids m s).last_timestamp = s.last_timestamp := by
  unfold ingestStep
  by_cases h : m.chat_jid ∈ jids <;> simp [h]

theorem ingestStep_calls (jids : List Str) (m : Message) (s : LoopState) :
    (ingestStep jids m s).calls = s.calls := by
  unfold ingestStep
  by_cases h : m.chat_jid ∈ jids <;> simp [h]

theorem pollStep_db (name : Str) (jids : List Str) (ok : Message → Bool)
    (s : LoopState) : (pollStep name jids ok s).db = s.db := by
  unfold pollStep
  by_cases h : jids.isEmpty <;> simp [h]

theorem pollStep_wm_le (name : Str) (jids : List Str) (ok : Message → Bool)
    (s : LoopState) :
    s.last_timestamp ≤ (pollStep name jids ok s).last_timestamp := by
  unfold pollStep
  by_cases h : jids.isEmpty
  · rw [if_pos h]
  · rw [if_neg h]
    have hgt : ∀ x ∈ queryBatch name jids s, s.last_timestamp ≤ x.timestamp :=
      fun x hx => le_of_lt (queryBatch_gt hx)
    rcases exists_first_fail ok (queryBatch name jids s) with hall |
      ⟨pre, m, post, hsplit, hpre, hm⟩
    · show s.last_timestamp ≤
        (runBatch ok s.last_timestamp s.calls (queryBatch name jids s)).1
      rw [runBatch_allOk ok _ _ _ hall]
      exact le_lastTs hgt
    · show s.last_timestamp ≤
        (runBatch ok s.last_timestamp s.calls (queryBatch name jids s)).1
      rw [hsplit, runBatch_failAt ok pre _ _ m post hpre hm]
      refine le_lastTs (fun x hx => hgt x ?_)
      rw [hsplit]
      exact List.mem_append_left _ hx

theorem stepEvent_wm_le (name : Str) (jids : List Str) (e : Event) (s : LoopState) :
    s.last_timestamp ≤ (stepEvent name jids e s).last_timestamp := by
  cases e with
  | ingest m => rw [stepEvent, ingestStep_wm]
  | poll ok => exact pollStep_wm_le name jids ok s

theorem runEvents_wm_le (name : Str) (jids : List Str) :
    ∀ (es : List Event) (s : LoopState),
      s.last_timestamp ≤ (runEvents name jids es s).last_timestamp
  | [], _ => le_refl _
  | e :: es, s =>
    le_trans (stepEvent_wm_le name jids e s)
      (runEvents_wm_le name jids es (stepEvent name jids e s))

/-- Messages of the successful calls of a trace, in order. -/
def succMsgs (calls : List (Message × Bool)) : List Message :=
  (calls.filter (fun p => p.2)).map Prod.fst

/-- Timestamp of the latest message whose handling returned normally, falling
back to the initial watermark `w0` when no call succeeded yet. -/
def lastSuccessTs (calls : List (Message × Bool)) (w0 : Str) : Str :=
  lastTs (succMsgs calls) w0

theorem succMsgs_append (a b : List (Message × Bool)) :
    succMsgs (a ++ b) = succMsgs a ++ succMsgs b := by
  simp [succMsgs, List.filter_append]

theorem succMsgs_trueMap : ∀ l : List Message,
    succMsgs (l.map (fun x => (x, true))) = l
  | [] => rfl
  | b :: l => by
    simp only [List.map_cons, succMsgs, List.filter_cons]
    simpa [succMsgs] using succMsgs_trueMap l

theorem succMsgs_falseSingle (m : Message) : succMsgs [(m, false)] = [] := rfl

theorem pollStep_lastSuccess {name : Str} {jids : List Str} {ok : Message → Bool}
    {s : LoopState} {w0 : Str}
    (h : s.last_timestamp = lastSuccessTs s.calls w0) :
    (pollStep name jids ok s).last_timestamp =
      lastSuccessTs (pollStep name jids ok s).calls w0 := by
  unfold pollStep
  by_cases hj : jids.isEmpty
  · rw [if_pos hj]; exact h
  · rw [if_neg hj]
    rcases exists_first_fail ok (queryBatch name jids s) with hall |
      ⟨pre, m, post, hsplit, hpre, hm⟩
    · show (runBatch ok s.last_timestamp s.calls (queryBatch name jids s)).1 =
        lastSuccessTs (runBatch ok s.last_timestamp s.calls (queryBatch name jids s)).2 w0
      rw [runBatch_allOk ok _ _ _ hall]
      rw [lastSuccessTs, succMsgs_append, succMsgs_trueMap, lastTs_append,
        ← lastSuccessTs, ← h]
    · show (runBatch ok s.last_timestamp s.calls (queryBatch name jids s)).1 =
        lastSuccessTs (runBatch ok s.last_timestamp s.calls (queryBatch name jids s)).2 w0
      rw [hsplit, runBatch_failAt ok pre _ _ m post hpre hm]
      rw [lastSuccessTs, succMsgs_append, succMsgs_append, succMsgs_trueMap,
        succMsgs_falseSingle, List.append_nil, lastTs_append, ← lastSuccessTs, ← h]

theorem runEvents_lastSuccess (name : Str) (jids : List Str) (w0 : Str) :
    ∀ (es : List Event) (s : LoopState),
      s.last_timestamp = lastSuccessTs s.calls w0 →
      (runEvents name jids es s).last_timestamp =
        lastSuccessTs (runEvents name jids es s).calls w0
  | [], _, h => h
  | e :: es, s, h => by
    refine runEvents_lastSuccess name jids w0 es (stepEvent name jids e s) ?_
    cases e with
    | ingest m => rw [stepEvent, ingestStep_wm, ingestStep_calls]; exact h
    | poll ok => exact pollStep_lastSuccess h

theorem subperm_nodup {α : Type} {l1 l2 : List α} (h : l1.Subperm l2)
    (h2 : l2.Nodup) : l1.Nodup := by
  obtain ⟨l, hp, hs⟩ := h
  exact hp.nodup (h2.sublist hs)

theorem subperm_map {α β : Type} (f : α → β) {l1 l2 : List α}
    (h : l1.Subperm l2) : (l1.map f).Subperm (l2.map f) := by
  obtain ⟨l, hp, hs⟩ := h
  exact ⟨l.map f, hp.map f, hs.map f⟩

/-- Strict ascending-timestamp order. -/
def tsLt (a b : Message) : Prop := a.timestamp < b.timestamp

theorem pairwise_tsLt_of_le_nodup {l : List Message} (hle : l.Pairwise tsLe)
    (hnd : (l.map Message.timestamp).Nodup) : l.Pairwise tsLt := by
  have hne : l.Pairwise (fun a b => a.timestamp ≠ b.timestamp) :=
    List.pairwise_map.mp hnd
  exact (hle.and hne).imp (fun h => lt_of_le_of_ne h.1 h.2)

/-- The exactly-once invariant of the dispatch pipeline, relative to a fixed
registry.  For every stored message that is not a bot reply: if its timestamp
is at or below the watermark it completed handling exactly once, otherwise it
never completed handling.  The bookkeeping clauses: every call was on a stored
message, stored timestamps are pairwise distinct, and every stored message
belongs to a registered chat. -/
def Inv (name : Str) (jids : List Str) (s : LoopState) : Prop :=
  (∀ m ∈ s.db.messages, (replyMark name).isPrefixOf m.content = false →
    (m.timestamp ≤ s.last_timestamp → s.calls.count (m, true) = 1) ∧
    (s.last_timestamp < m.timestamp → s.calls.count (m, true) = 0)) ∧
  (∀ p ∈ s.calls, p.1 ∈ s.db.messages) ∧
  (s.db.messages.map Message.timestamp).Nodup ∧
  (∀ m ∈ s.db.messages, m.chat_jid ∈ jids)

theorem inv_ingest {name : Str} {jids : List Str} {s : LoopState} {m : Message}
    (hinv : Inv name jids s)
    (hwf : m.chat_jid ∈ jids →
      s.last_timestamp < m.timestamp ∧
        ∀ r ∈ s.db.messages, r.timestamp ≠ m.timestamp ∧ sameKey r m = false) :
    Inv name jids (ingestStep jids m s) := by
  obtain ⟨hA, hC, hD, hE⟩ := hinv
  unfold ingestStep
  by_cases hchat : m.chat_jid ∈ jids
  · rw [if_pos hchat]
    obtain ⟨hfresh, hkeys⟩ := hwf hchat
    have hdbeq : (store_message s.db m).messages = s.db.messages ++ [m] := by
      unfold store_message
      simp only
      congr 1
      refine List.filter_eq_self.mpr (fun r hr => ?_)
      rw [(hkeys r hr).2]
      rfl
    constructor
    · intro m' hm' hself
      rw [hdbeq] at hm'
      rcases List.mem_append.mp hm' with hold | hnew
      · exact hA m' hold hself
      · rw [List.mem_singleton.mp hnew]
        constructor
        · intro hle
          exact absurd hfresh (not_lt.mpr hle)
        · intro _
          rw [List.count_eq_zero]
          intro hmem
          have := (hkeys m (hC (m, true) hmem)).1
          exact this rfl
    · refine ⟨fun p hp => ?_, ?_, fun m' hm' => ?_⟩
      · rw [hdbeq]
        exact List.mem_append_left _ (hC p hp)
      · rw [hdbeq, List.map_append]
        rw [List.nodup_append]
        refine ⟨hD, List.nodup_singleton _, fun t ht ht' => ?_⟩
        rw [List.map_singleton, List.mem_singleton] at ht'
        obtain ⟨r, hr, rfl⟩ := List.mem_map.mp ht
        exact (hkeys r hr).1 (ht' ▸ rfl)
      · rw [hdbeq] at hm'
        rcases List.mem_append.mp hm' with hold | hnew
        · exact hE m' hold
        · rw [List.mem_singleton.mp hnew]
          exact hchat
  · rw [if_neg hchat]
    exact ⟨hA, hC, hD, hE⟩

theorem inv_poll {name : Str} {jids : List Str} {ok : Message → Bool}
    {s : LoopState} (hinv : Inv name jids s) :
    Inv name jids (pollStep name jids ok s) := by
  obtain ⟨hA, hC, hD, hE⟩ := hinv
  unfold pollStep
  by_cases hj : jids.isEmpty
  · rw [if_pos hj]; exact ⟨hA, hC, hD, hE⟩
  · rw [if_neg hj]
    set wm := s.last_timestamp with hwm
    set batch := queryBatch name jids s with hbatch
    have hmemB : ∀ x : Message, x ∈ batch ↔
        (x ∈ s.db.messages ∧ wm < x.timestamp ∧ x.chat_jid ∈ jids ∧
          passMark (some (replyMark name)) x = true) := fun x => gnm_mem
    have hgtB : ∀ x ∈ batch, wm < x.timestamp := fun x hx => ((hmemB x).mp hx).2.1
    have hinB : ∀ x ∈ batch, x ∈ s.db.messages := fun x hx => ((hmemB x).mp hx).1
    have hpairB : batch.Pairwise tsLe := queryBatch_pairwise name jids s
    have hsubB : batch.Subperm s.db.messages := gnm_subperm _ _ _ _
    have hndTs : (batch.map Message.timestamp).Nodup :=
      subperm_nodup (subperm_map _ hsubB) hD
    have hltB : batch.Pairwise tsLt := pairwise_tsLt_of_le_nodup hpairB hndTs
    have hndB : batch.Nodup := hndTs.of_map _
    have hiffB : ∀ m ∈ s.db.messages,
        (replyMark name).isPrefixOf m.content = false →
        (m ∈ batch ↔ wm < m.timestamp) := by
      intro m hm hself
      constructor
      · exact fun h => ((hmemB m).mp h).2.1
      · intro h
        refine (hmemB m).mpr ⟨hm, h, hE m hm, ?_⟩
        simp [passMark, hself]
    rcases exists_first_fail ok batch with hall | ⟨pre, m0, post, hsplit, hpre0, hm0⟩
    · rw [runBatch_allOk ok _ _ _ hall]
      dsimp only
      have hcount : ∀ x : Message,
          (s.calls ++ batch.map (fun y => (y, true))).count (x, true) =
            s.calls.count (x, true) + batch.count x := by
        intro x
        rw [List.count_append, count_map_true]
      have hwm' : wm ≤ lastTs batch wm :=
        le_lastTs (fun x hx => le_of_lt (hgtB x hx))
      refine ⟨?_, ?_, hD, hE⟩
      · intro m hm hself
        by_cases hmB : m ∈ batch
        · have h1 : batch.count m = 1 := List.count_eq_one_of_mem hndB hmB
          have h0 : s.calls.count (m, true) = 0 := (hA m hm hself).2 (hgtB m hmB)
          have hle' : m.timestamp ≤ lastTs batch wm := mem_le_lastTs hpairB hmB
          constructor
          · intro _; rw [hcount, h0, h1]
          · intro hlt; exact absurd hle' (not_le.mpr hlt)
        · have h1 : batch.count m = 0 := List.count_eq_zero.mpr hmB
          have hts : m.timestamp ≤ wm :=
            le_of_not_lt (fun h => hmB ((hiffB m hm hself).mpr h))
          have hcnt1 : s.calls.count (m, true) = 1 := (hA m hm hself).1 hts
          constructor
          · intro _; rw [hcount, hcnt1, h1]
          · intro hlt; exact absurd (le_trans hts hwm') (not_le.mpr hlt)
      · intro p hp
        rcases List.mem_append.mp hp with hold | hnew
        · exact hC p hold
        · obtain ⟨x, hxB, rfl⟩ := List.mem_map.mp hnew
          exact hinB x hxB
    · rw [hsplit, runBatch_failAt ok pre _ _ m0 post hpre0 hm0]
      dsimp only
      have hpreSub : pre.Sublist batch := by
        rw [hsplit]; exact List.sublist_append_left _ _
      have hpreB : ∀ x ∈ pre, x ∈ batch := fun x hx => hpreSub.subset hx
      have hm0B : m0 ∈ batch := by
        rw [hsplit]; exact List.mem_append_right _ (List.mem_cons_self _ _)
      have hpostB : ∀ x ∈ post, x ∈ batch := by
        intro x hx
        rw [hsplit]; exact List.mem_append_right _ (List.mem_cons_of_mem _ hx)
      have hprePair : pre.Pairwise tsLe := List.Pairwise.sublist hpreSub hpairB
      have hpreNd : pre.Nodup := hndB.sublist hpreSub
      have hndSplit : (pre ++ m0 :: post).Nodup := by rw [← hsplit]; exact hndB
      have hdisj : ∀ x ∈ m0 :: post, x ∉ pre := by
        intro x hx hxpre
        exact List.disjoint_of_nodup_append hndSplit hxpre hx
      have hltSplit : (pre ++ m0 :: post).Pairwise tsLt := by
        rw [← hsplit]; exact hltB
      have hcross : ∀ x ∈ pre, ∀ y ∈ m0 :: post, tsLt x y :=
        (List.pairwise_append.mp hltSplit).2.2
      have hwm' : wm ≤ lastTs pre wm :=
        le_lastTs (fun x hx => le_of_lt (hgtB x (hpreB x hx)))
      have hcount : ∀ x : Message,
          (s.calls ++ pre.map (fun y => (y, true)) ++ [(m0, false)]).count (x, true) =
            s.calls.count (x, true) + pre.count x := by
        intro x
        rw [List.count_append, List.count_append, count_map_true]
        have : List.count (x, true) [(m0, false)] = 0 := by
          simp [List.count_cons]
        rw [this, Nat.add_zero]
      refine ⟨?_, ?_, hD, hE⟩
      · intro m hm hself
        by_cases hmPre : m ∈ pre
        · have h1 : pre.count m = 1 := List.count_eq_one_of_mem hpreNd hmPre
          have h0 : s.calls.count (m, true) = 0 :=
            (hA m hm hself).2 (hgtB m (hpreB m hmPre))
          have hle' : m.timestamp ≤ lastTs pre wm := mem_le_lastTs hprePair hmPre
          constructor
          · intro _; rw [hcount, h0, h1]
          · intro hlt; exact absurd hle' (not_le.mpr hlt)
        · have h1 : pre.count m = 0 := List.count_eq_zero.mpr hmPre
          by_cases hmB : m ∈ batch
          · have hmRest : m ∈ m0 :: post := by
              have := hmB
              rw [hsplit] at this
              rcases List.mem_append.mp this with h' | h'
              · exact absurd h' hmPre
              · exact h'
            have h0 : s.calls.count (m, true) = 0 := (hA m hm hself).2 (hgtB m hmB)
            have hlt' : lastTs pre wm < m.timestamp := by
              refine lastTs_lt (hgtB m hmB) ?_
              intro x hx
              exact hcross x hx m hmRest
            constructor
            · intro hle; exact absurd hlt' (not_lt.mpr hle)
            · intro _; rw [hcount, h0, h1]
          · have hts : m.timestamp ≤ wm :=
              le_of_not_lt (fun h => hmB ((hiffB m hm hself).mpr h))
            have hcnt1 : s.calls.count (m, true) = 1 := (hA m hm hself).1 hts
            constructor
            · intro _; rw [hcount, hcnt1, h1]
            · intro hlt; exact absurd (le_trans hts hwm') (not_le.mpr hlt)
      · intro p hp
        rcases List.mem_append.mp hp with hp' | hp''
        · rcases List.mem_append.mp hp' with hold | hnew
          · exact hC p hold
          · obtain ⟨x, hxP, rfl⟩ := List.mem_map.mp hnew
            exact hinB x (hpreB x hxP)
        · rw [List.mem_singleton.mp hp'']
          exact hinB m0 hm0B

theorem inv_run (name : Str) (jids : List Str) :
    ∀ (es : List Event) (s : LoopState),
      Inv name jids s → wfEvents name jids s es = true →
      Inv name jids (runEvents name jids es s)
  | [], _, hinv, _ => hinv
  | .ingest m :: es, s, hinv, hwf => by
    rw [wfEvents, Bool.and_eq_true] at hwf
    refine inv_run name jids es _ (inv_ingest hinv ?_) hwf.2
    intro hchat
    rcases Bool.or_eq_true _ _ |>.mp hwf.1 with h | h
    · rw [Bool.not_eq_true', decide_eq_false_iff_not] at h
      exact absurd hchat h
    · rw [Bool.and_eq_true, decide_eq_true_eq, decide_eq_true_eq] at h
      refine ⟨h.1, fun r hr => ⟨(h.2 r hr).1, ?_⟩⟩
      have := (h.2 r hr).2
      rwa [Bool.not_eq_true'] at this
  | .poll ok :: es, s, hinv, hwf => by
    rw [wfEvents] at hwf
    exact inv_run name jids es _ (inv_poll hinv) hwf

theorem runBatch_calls_mem (ok : Message → Bool) :
    ∀ (batch : List Message) (wm : Str) (calls : List (Message × Bool))
      (p : Message × Bool),
      p ∈ (runBatch ok wm calls batch).2 → p ∈ calls ∨ p.1 ∈ batch
  | [], _, _, _, hp => Or.inl hp
  | b :: rest, wm, calls, p, hp => by
    rw [runBatch_cons] at hp
    by_cases hb : ok b
    · rw [if_pos hb] at hp
      rcases runBatch_calls_mem ok rest b.timestamp (calls ++ [(b, true)]) p hp with
        h | h
      · rcases List.mem_append.mp h with h' | h'
        · exact Or.inl h'
        · right
          rw [List.mem_singleton.mp h']
          exact List.mem_cons_self _ _
      · exact Or.inr (List.mem_cons_of_mem _ h)
    · rw [if_neg hb] at hp
      rcases List.mem_append.mp hp with h' | h'
      · exact Or.inl h'
      · right
        rw [List.mem_singleton.mp h']
        exact List.mem_cons_self _ _

theorem pollStep_no_selfMark {name : Str} {jids : List Str} {ok : Message → Bool}
    {s : LoopState}
    (h : ∀ p ∈ s.calls, (replyMark name).isPrefixOf p.1.content = false) :
    ∀ p ∈ (pollStep name jids ok s).calls,
      (replyMark name).isPrefixOf p.1.content = false := by
  intro p hp
  unfold pollStep at hp
  by_cases hj : jids.isEmpty
  · rw [if_pos hj] at hp
    exact h p hp
  · rw [if_neg hj] at hp
    rcases runBatch_calls_mem ok _ _ _ p hp with hold | hmem
    · exact h p hold
    · have := (gnm_mem.mp hmem).2.2.2
      simpa [passMark, Bool.not_eq_true'] using this

theorem run_no_selfMark (name : Str) (jids : List Str) :
    ∀ (es : List Event) (s : LoopState),
      (∀ p ∈ s.calls, (replyMark name).isPrefixOf p.1.content = false) →
      ∀ p ∈ (runEvents name jids es s).calls,
        (replyMark name).isPrefixOf p.1.content = false
  | [], _, h => h
  | .ingest m :: es, s, h => by
    refine run_no_selfMark name jids es _ ?_
    rw [stepEvent, ingestStep_calls]
    exact h
  | .poll ok :: es, s, h =>
    run_no_selfMark name jids es _ (pollStep_no_selfMark h)

-- === helper lemmas: process_message branches ===

theorem pm_clear {name : Str} {groups : List (Str × Group)}
    {sessions files : List (Str × Str)} {engine : Str → Str → Option Str → AgentResponse}
    {msg : Message} {g : Group}
    (hg : groups.lookup msg.chat_jid = some g)
    (hc : lowerStr (pyStrip msg.content) = CLEAR_COMMAND) :
    process_message name groups sessions files engine msg =
      ⟨if (sessions.lookup g.folder).isSome then eraseKey sessions g.folder
          else sessions,
        files,
        [(msg.chat_jid, replyMark name ++ str " Conversation cleared! Starting fresh.")],
        [], (sessions.lookup g.folder).isSome⟩ := by
  unfold process_message
  rw [hg]
  dsimp only
  rw [if_pos hc]

theorem ne_clear_of_pers {c : Str}
    (h : PERSONALITY_COMMAND.isPrefixOf (lowerStr c) = true) :
    ¬lowerStr c = CLEAR_COMMAND := by
  intro heq
  rw [heq] at h
  exact absurd h (by decide)

theorem pm_personality_empty {name : Str} {groups : List (Str × Group)}
    {sessions files : List (Str × Str)}
    {engine : Str → Str → Option Str → AgentResponse} {msg : Message} {g : Group}
    (hg : groups.lookup msg.chat_jid = some g)
    (hpers : PERSONALITY_COMMAND.isPrefixOf (lowerStr (pyStrip msg.content)) = true)
    (hempty : (pyStrip ((pyStrip msg.content).drop PERSONALITY_COMMAND.length)).isEmpty
      = true) :
    process_message name groups sessions files engine msg =
      ⟨sessions, files,
        [(msg.chat_jid, replyMark name ++ str " Usage: /personality <instructions>")],
        [], false⟩ := by
  unfold process_message
  rw [hg]
  dsimp only
  rw [if_neg (ne_clear_of_pers hpers), if_pos hpers, if_pos hempty]

theorem pm_personality_update {name : Str} {groups : List (Str × Group)}
    {sessions files : List (Str × Str)}
    {engine : Str → Str → Option Str → AgentResponse} {msg : Message} {g : Group}
    {doc : Str} {i j : Nat}
    (hg : groups.lookup msg.chat_jid = some g)
    (hpers : PERSONALITY_COMMAND.isPrefixOf (lowerStr (pyStrip msg.content)) = true)
    (hne : (pyStrip ((pyStrip msg.content).drop PERSONALITY_COMMAND.length)).isEmpty
      = false)
    (hdoc : files.lookup g.folder = some doc)
    (hmem : findSub doc MEM_MARK = some i)
    (hsf : findSub doc SF_MARK = some j) :
    process_message name groups sessions files engine msg =
      ⟨sessions,
        setKey files g.folder (renderPersona
          (pyStrip ((pyStrip msg.content).drop PERSONALITY_COMMAND.length))
          (pyStrip ((doc.take j).drop (i + MEM_MARK.length)))
          (pyStrip (doc.drop (j + SF_MARK.length)))),
        [(msg.chat_jid, replyMark name ++ str " Personality updated!")],
        [], false⟩ := by
  unfold process_message
  rw [hg]
  dsimp only
  rw [if_neg (ne_clear_of_pers hpers), if_pos hpers,
    if_neg (by rw [hne]; exact Bool.false_ne_true), hdoc]
  dsimp only
  rw [containsSub, hmem, containsSub, hsf]
  dsimp only [Option.isSome]
  rw [if_pos rfl, if_pos rfl, if_pos rfl]
  rfl

theorem pm_no_trigger {name : Str} {groups : List (Str × Group)}
    {sessions files : List (Str × Str)}
    {engine : Str → Str → Option Str → AgentResponse} {msg : Message} {g : Group}
    (hg : groups.lookup msg.chat_jid = some g)
    (hclear : ¬lowerStr (pyStrip msg.content) = CLEAR_COMMAND)
    (hpers : PERSONALITY_COMMAND.isPrefixOf (lowerStr (pyStrip msg.content)) = false)
    (htrig : triggerHit name (pyStrip msg.content) = false) :
    process_message name groups sessions files engine msg =
      ⟨sessions, files, [], [], false⟩ := by
  unfold process_message
  rw [hg]
  dsimp only
  rw [if_neg hclear, if_neg (by rw [hpers]; exact Bool.false_ne_true),
    if_pos (by rw [htrig]; rfl)]

theorem pm_empty_prompt {name : Str} {groups : List (Str × Group)}
    {sessions files : List (Str × Str)}
    {engine : Str → Str → Option Str → AgentResponse} {msg : Message} {g : Group}
    (hg : groups.lookup msg.chat_jid = some g)
    (hclear : ¬lowerStr (pyStrip msg.content) = CLEAR_COMMAND)
    (hpers : PERSONALITY_COMMAND.isPrefixOf (lowerStr (pyStrip msg.content)) = false)
    (htrig : triggerHit name (pyStrip msg.content) = true)
    (hempty : (pyStrip ((pyStrip msg.content).drop (1 + name.length))).isEmpty = true) :
    process_message name groups sessions files engine msg =
      ⟨sessions, files, [], [], false⟩ := by
  unfold process_message
  rw [hg]
  dsimp only
  rw [if_neg hclear, if_neg (by rw [hpers]; exact Bool.false_ne_true),
    if_neg (by rw [htrig]; exact Bool.false_ne_true), if_pos hempty]

theorem pm_engine_fail {name : Str} {groups : List (Str × Group)}
    {sessions files : List (Str × Str)}
    {engine : Str → Str → Option Str → AgentResponse} {msg : Message} {g : Group}
    (hg : groups.lookup msg.chat_jid = some g)
    (hclear : ¬lowerStr (pyStrip msg.content) = CLEAR_COMMAND)
    (hpers : PERSONALITY_COMMAND.isPrefixOf (lowerStr (pyStrip msg.content)) = false)
    (htrig : triggerHit name (pyStrip msg.content) = true)
    (hne : (pyStrip ((pyStrip msg.content).drop (1 + name.length))).isEmpty = false)
    (hresp : ((engine
        (build_prompt (pyStrip ((pyStrip msg.content).drop (1 + name.length)))
          msg.sender_name g.name)
        g.folder (sessions.lookup g.folder)).success &&
      truthy (engine
        (build_prompt (pyStrip ((pyStrip msg.content).drop (1 + name.length)))
          msg.sender_name g.name)
        g.folder (sessions.lookup g.folder)).result) = false) :
    process_message name groups sessions files engine msg =
      ⟨sessions,
        (match files.lookup g.folder with
          | none => setKey files g.folder DEFAULT_CLAUDE_MD
          | some _ => files),
        [(msg.chat_jid,
          replyMark name ++ str " Sorry, I encountered an error. Please try again.")],
        [(build_prompt (pyStrip ((pyStrip msg.content).drop (1 + name.length)))
            msg.sender_name g.name, g.folder, sessions.lookup g.folder)],
        false⟩ := by
  unfold process_message
  rw [hg]
  dsimp only
  rw [if_neg hclear, if_neg (by rw [hpers]; exact Bool.false_ne_true),
    if_neg (by rw [htrig]; exact Bool.false_ne_true),
    if_neg (by rw [hne]; exact Bool.false_ne_true),
    if_neg (by rw [hresp]; exact Bool.false_ne_true)]

theorem pm_engine_ok {name : Str} {groups : List (Str × Group)}
    {sessions files : List (Str × Str)}
    {engine : Str → Str → Option Str → AgentResponse} {msg : Message} {g : Group}
    (hg : groups.lookup msg.chat_jid = some g)
    (hclear : ¬lowerStr (pyStrip msg.content) = CLEAR_COMMAND)
    (hpers : PERSONALITY_COMMAND.isPrefixOf (lowerStr (pyStrip msg.content)) = false)
    (htrig : triggerHit name (pyStrip msg.content) = true)
    (hne : (pyStrip ((pyStrip msg.content).drop (1 + name.length))).isEmpty = false)
    (hresp : ((engine
        (build_prompt (pyStrip ((pyStrip msg.content).drop (1 + name.length)))
          msg.sender_name g.name)
        g.folder (sessions.lookup g.folder)).success &&
      truthy (engine
        (build_prompt (pyStrip ((pyStrip msg.content).drop (1 + name.length)))
          msg.sender_name g.name)
        g.folder (sessions.lookup g.folder)).result) = true) :
    process_message name groups sessions files engine msg =
      ⟨(if truthy (engine
            (build_prompt (pyStrip ((pyStrip msg.content).drop (1 + name.length)))
              msg.sender_name g.name)
            g.folder (sessions.lookup g.folder)).session_id
          then setKey sessions g.folder
            ((engine
              (build_prompt (pyStrip ((pyStrip msg.content).drop (1 + name.length)))
                msg.sender_name g.name)
              g.folder (sessions.lookup g.folder)).session_id.getD [])
          else sessions),
        (match files.lookup g.folder with
          | none => setKey files g.folder DEFAULT_CLAUDE_MD
          | some _ => files),
        [(msg.chat_jid,
          replyMark name ++ str " " ++
            (engine
              (build_prompt (pyStrip ((pyStrip msg.content).drop (1 + name.length)))
                msg.sender_name g.name)
              g.folder (sessions.lookup g.folder)).result.getD [])],
        [(build_prompt (pyStrip ((pyStrip msg.content).drop (1 + name.length)))
            msg.sender_name g.name, g.folder, sessions.lookup g.folder)],
        false⟩ := by
  unfold process_message
  rw [hg]
  dsimp only
  rw [if_neg hclear, if_neg (by rw [hpers]; exact Bool.false_ne_true),
    if_neg (by rw [htrig]; exact Bool.false_ne_true),
    if_neg (by rw [hne]; exact Bool.false_ne_true),
    if_pos hresp]

theorem pm_engine_calls {name : Str} {groups : List (Str × Group)}
    {sessions files : List (Str × Str)}
    {engine : Str → Str → Option Str → AgentResponse} {msg : Message} {g : Group}
    (hg : groups.lookup msg.chat_jid = some g)
    (hclear : ¬lowerStr (pyStrip msg.content) = CLEAR_COMMAND)
    (hpers : PERSONALITY_COMMAND.isPrefixOf (lowerStr (pyStrip msg.content)) = false)
    (htrig : triggerHit name (pyStrip msg.content) = true)
    (hne : (pyStrip ((pyStrip msg.content).drop (1 + name.length))).isEmpty = false) :
    (process_message name groups sessions files engine msg).engineCalls =
      [(build_prompt (pyStrip ((pyStrip msg.content).drop (1 + name.length)))
          msg.sender_name g.name, g.folder, sessions.lookup g.folder)] := by
  by_cases hresp : ((engine
      (build_prompt (pyStrip ((pyStrip msg.content).drop (1 + name.length)))
        msg.sender_name g.name)
      g.folder (sessions.lookup g.folder)).success &&
    truthy (engine
      (build_prompt (pyStrip ((pyStrip msg.content).drop (1 + name.length)))
        msg.sender_name g.name)
      g.folder (sessions.lookup g.folder)).result) = true
  · rw [pm_engine_ok hg hclear hpers htrig hne hresp]
  · rw [pm_engine_fail hg hclear hpers htrig hne (Bool.eq_false_iff.mpr hresp)]

-- === concrete fixtures for witnesses and counterexamples ===

/-- Fixture: the default assistant name. -/
def cexName : Str := str "PyClaw"

/-- Fixture: one registered chat. -/
def cexJids : List Str := [str "family@g.us"]

/-- Fixture: a message with a later timestamp, ingested first. -/
def cexM5 : Message :=
  ⟨str "A1", str "family@g.us", str "u1", str "Ana", str "@PyClaw hello",
    str "2024-01-01T10:05:00", false⟩

/-- Fixture: a message with an earlier timestamp, ingested after the watermark
has already passed it. -/
def cexM2 : Message :=
  ⟨str "A2", str "family@g.us", str "u2", str "Bo", str "@PyClaw late one",
    str "2024-01-01T10:02:00", false⟩

/-- Fixture: run with a late ingest. -/
def cexTrace : List Event :=
  [.ingest cexM5, .poll (fun _ => true), .ingest cexM2, .poll (fun _ => true)]

/-- Fixture: final state of the late-ingest run. -/
def cexFinal : LoopState := runEvents cexName cexJids cexTrace ⟨emptyDB, [], []⟩

/-- Fixture: a well-formed single-message run. -/
def witTrace : List Event := [.ingest cexM5, .poll (fun _ => true)]

/-- Fixture: store holding only `cexM5`, with an empty watermark. -/
def witState : LoopState := ⟨store_message emptyDB cexM5, [], []⟩

-- === helper lemmas: the store ===

/-- Identity of a stored message: the `messages` PRIMARY KEY. -/
def msgKey (m : Message) : Str × Str := (m.id, m.chat_jid)

/-- No two rows of the table share a primary key. -/
def keysNodup (l : List Message) : Prop := (l.map msgKey).Nodup

theorem sameKey_true_iff {a b : Message} :
    sameKey a b = true ↔ a.id = b.id ∧ a.chat_jid = b.chat_jid := by
  simp [sameKey]

theorem sameKey_false_iff {a b : Message} :
    sameKey a b = false ↔ msgKey a ≠ msgKey b := by
  rw [← Bool.not_eq_true, sameKey_true_iff, msgKey, msgKey]
  constructor
  · intro h heq
    exact h ⟨congrArg Prod.fst heq, congrArg Prod.snd heq⟩
  · intro h ⟨h1, h2⟩
    exact h (by rw [h1, h2])

theorem store_messages_eq (db : DB) (m : Message) :
    (store_message db m).messages =
      db.messages.filter (fun r => !sameKey r m) ++ [m] := rfl

theorem store_keysNodup {db : DB} {m : Message} (h : keysNodup db.messages) :
    keysNodup (store_message db m).messages := by
  rw [keysNodup, store_messages_eq, List.map_append, List.nodup_append]
  refine ⟨(h.sublist (List.Sublist.map _ (List.filter_sublist _))),
    List.nodup_singleton _, ?_⟩
  intro k hk hk'
  rw [List.map_singleton, List.mem_singleton] at hk'
  obtain ⟨r, hr, rfl⟩ := List.mem_map.mp hk
  have hkeep := List.of_mem_filter hr
  rw [Bool.not_eq_eq_eq_not, Bool.not_true] at hkeep
  exact (sameKey_false_iff.mp hkeep) hk'

-- === C3 ===

/-- C3.  Storing two messages with the same `(id, chat_jid)` identity leaves
exactly one row for that identity, the one written last (`INSERT OR REPLACE`);
re-storing preserves key uniqueness of the table; and on a key-unique table
`get_new_messages` never returns two messages with the same identity. -/
theorem C3_idempotent_store (db : DB) (m1 m2 : Message)
    (hnd : keysNodup db.messages) (hid : m1.id = m2.id)
    (hchat : m1.chat_jid = m2.chat_jid) :
    ((store_message (store_message db m1) m2).messages.filter
        (fun r => sameKey r m1) = [m2]) ∧
      keysNodup (store_message (store_message db m1) m2).messages ∧
      ∀ (chat_jids : List Str) (since : Str) (exclContent : Option Str),
        ((get_new_messages (store_message (store_message db m1) m2) chat_jids
            since exclContent).map msgKey).Nodup := by
  have hnd2 : keysNodup (store_message (store_message db m1) m2).messages :=
    store_keysNodup (store_keysNodup hnd)
  have hkeys : ∀ a : Message, sameKey a m1 = sameKey a m2 := by
    intro a
    unfold sameKey
    rw [hid, hchat]
  refine ⟨?_, hnd2, ?_⟩
  · rw [store_messages_eq, List.filter_append]
    have h1 : ((store_message db m1).messages.filter (fun r => !sameKey r m2)).filter
        (fun r => sameKey r m1) = [] := by
      rw [List.filter_eq_nil_iff]
      intro a ha
      have := List.of_mem_filter ha
      rw [Bool.not_eq_eq_eq_not, Bool.not_true] at this
      rw [hkeys, this]
      exact Bool.false_ne_true
    have h2 : List.filter (fun r => sameKey r m1) [m2] = [m2] := by
      have heq : sameKey m2 m1 = true := by
        rw [hkeys]
        exact sameKey_true_iff.mpr ⟨rfl, rfl⟩
      simp [List.filter_cons, heq]
    rw [h1, h2, List.nil_append]
  · intro chat_jids since exclContent
    exact subperm_nodup (subperm_map _ (gnm_subperm _ _ _ _)) hnd2

/-- Fixture: a second write of the identity of `cexM5` with different content. -/
def cexM5b : Message :=
  ⟨cexM5.id, cexM5.chat_jid, str "u9", str "Zoe", str "edited text",
    str "2024-01-01T10:06:00", false⟩

/-- C3 witness: the theorem applied to two concrete writes of the same identity
with different contents into the empty store. -/
theorem C3_witness :
    (store_message (store_message emptyDB cexM5) cexM5b).messages.filter
      (fun r => sameKey r cexM5) = [cexM5b] :=
  (C3_idempotent_store emptyDB cexM5 cexM5b List.Pairwise.nil rfl rfl).1

-- === C5 ===

/-- Fixture: the shared timestamp of the tie counterexample. -/
def tieTs : Str := str "2024-01-01T09:00:00"

/-- Fixture: first insert, in the chat that the IN list names second. -/
def tieM1 : Message :=
  ⟨str "T1", str "beta@g.us", str "u1", str "Ana", str "one", tieTs, false⟩

/-- Fixture: second insert, same timestamp, in the chat the IN list names
first. -/
def tieM2 : Message :=
  ⟨str "T2", str "alpha@g.us", str "u2", str "Bo", str "two", tieTs, false⟩

/-- Fixture: store holding the two equal-timestamp rows, `tieM1` first. -/
def tieDB : DB := store_message (store_message emptyDB tieM1) tieM2

/-- Fixture: the IN list, alpha before beta. -/
def tieJids : List Str := [str "alpha@g.us", str "beta@g.us"]

/-- C5, counterexample.  Two rows with equal timestamps in different chats,
inserted beta-row first: the query visits the IN values chat by chat, so the
alpha row comes back before the beta row — the equal-timestamp subsequence of
the result is not the insertion-order subsequence of the store, refuting the
tie-break part of the claim. -/
theorem C5_counterexample :
    tieDB.messages = [tieM1, tieM2] ∧
      get_new_messages tieDB tieJids [] none = [tieM2, tieM1] ∧
      ¬(get_new_messages tieDB tieJids [] none).filter
          (fun m => decide (m.timestamp = tieTs)) =
        (tieDB.messages.filter (fun r => decide (([] : Str) < r.timestamp) &&
            decide (r.chat_jid ∈ tieJids))).filter
          (fun m => decide (m.timestamp = tieTs)) := by decide

/-- C5, amended.  For every chat set and watermark, `get_new_messages` (with
no exclusion marker, the `query_after` contract) returns exactly the stored
messages with timestamp strictly greater than the watermark whose chat is in
the set — as a multiset: the result is a permutation of those rows — ordered
ascending by timestamp.  The order among rows with equal timestamps is not
guaranteed: it follows the query plan (rows grouped by chat here), not
insertion order.  The single-SQL-query aspect is an implementation property
outside the embedding. -/
theorem C5_query_after_spec (db : DB) (chat_jids : List Str) (since : Str) :
    (∀ m : Message, m ∈ get_new_messages db chat_jids since none ↔
        m ∈ db.messages ∧ since < m.timestamp ∧ m.chat_jid ∈ chat_jids) ∧
      (get_new_messages db chat_jids since none).Perm
        (db.messages.filter (fun r => decide (since < r.timestamp) &&
          decide (r.chat_jid ∈ chat_jids))) ∧
      (get_new_messages db chat_jids since none).Pairwise tsLe := by
  refine ⟨?_, gnm_perm_filter db chat_jids since,
    gnm_pairwise_le db chat_jids since none⟩
  intro m
  rw [gnm_mem]
  simp [passMark]

-- === C1 ===

/-- C1, counterexample.  The claim asserts that no stored message with
timestamp at or below the persisted watermark is ever skipped, even when a
message is ingested after the watermark has passed its timestamp.  In this run
the pipeline processes a message with timestamp 10:05 (advancing the watermark
there), then a message with timestamp 10:02 arrives late: it is stored, sits at
or below the watermark, is not a bot reply, yet `process_message` was never
invoked on it — `get_new_messages` only returns rows with
`timestamp > last_timestamp`, so the late row is skipped forever. -/
theorem C1_counterexample :
    cexM2 ∈ cexFinal.db.messages ∧
      (replyMark cexName).isPrefixOf cexM2.content = false ∧
      cexM2.timestamp ≤ cexFinal.last_timestamp ∧
      cexFinal.calls.count (cexM2, true) = 0 := by decide

/-- C1, amended.  Provided every stored inbound message arrives while the
watermark is still strictly below its timestamp and carries a timestamp and
primary key fresh for the store (`wfEvents`), every stored message that is not
a bot reply and whose timestamp is at or below the persisted watermark has
completed handling by `process_message` exactly once. -/
theorem C1_watermark_handled_once (name : Str) (jids : List Str) (w0 : Str)
    (es : List Event) (m : Message)
    (hwf : wfEvents name jids ⟨emptyDB, w0, []⟩ es = true)
    (hm : m ∈ (runEvents name jids es ⟨emptyDB, w0, []⟩).db.messages)
    (hself : (replyMark name).isPrefixOf m.content = false)
    (hts : m.timestamp ≤ (runEvents name jids es ⟨emptyDB, w0, []⟩).last_timestamp) :
    (runEvents name jids es ⟨emptyDB, w0, []⟩).calls.count (m, true) = 1 := by
  have hinv0 : Inv name jids ⟨emptyDB, w0, []⟩ :=
    ⟨fun m hm => absurd hm (List.not_mem_nil m),
      fun p hp => absurd hp (List.not_mem_nil p),
      by simp [emptyDB],
      fun m hm => absurd hm (List.not_mem_nil m)⟩
  exact ((inv_run name jids es _ hinv0 hwf).1 m hm hself).1 hts

/-- C1 witness: the amended theorem applied to a concrete well-formed run. -/
theorem C1_witness :
    wfEvents cexName cexJids ⟨emptyDB, [], []⟩ witTrace = true ∧
      (runEvents cexName cexJids witTrace ⟨emptyDB, [], []⟩).calls.count
        (cexM5, true) = 1 :=
  ⟨by decide,
    C1_watermark_handled_once cexName cexJids [] witTrace cexM5 (by decide)
      (by decide) (by decide) (by decide)⟩

-- === C2 ===

/-- C2.  First conjunct: across any run the persisted watermark is
non-decreasing.  Second conjunct: the watermark always equals the timestamp of
the latest message whose handling returned normally (falling back to the
loaded initial watermark before the first success).  Third conjunct: when
`process_message` raises on a message, that poll cycle stops there — the calls
trace gains exactly the successes before it and the one failed call, nothing
from the remainder of the batch — the watermark is left at the timestamp of
the preceding success (unchanged when the failure was first), and the next
cycle re-queries the store from exactly that watermark. -/
theorem C2_watermark_monotone_lastSuccess :
    (∀ (name : Str) (jids : List Str) (es : List Event) (s : LoopState),
      s.last_timestamp ≤ (runEvents name jids es s).last_timestamp) ∧
    (∀ (name : Str) (jids : List Str) (w0 : Str) (db0 : DB) (es : List Event),
      (runEvents name jids es ⟨db0, w0, []⟩).last_timestamp =
        lastSuccessTs (runEvents name jids es ⟨db0, w0, []⟩).calls w0) ∧
    (∀ (name : Str) (jids : List Str) (ok : Message → Bool) (s : LoopState)
      (pre : List Message) (m : Message) (post : List Message),
      ¬jids.isEmpty →
      queryBatch name jids s = pre ++ m :: post →
      (∀ x ∈ pre, ok x = true) → ok m = false →
      pollStep name jids ok s =
        ⟨s.db, lastTs pre s.last_timestamp,
          s.calls ++ pre.map (fun x => (x, true)) ++ [(m, false)]⟩ ∧
      queryBatch name jids (pollStep name jids ok s) =
        get_new_messages s.db jids (lastTs pre s.last_timestamp)
          (some (replyMark name))) := by
  refine ⟨fun name jids es s => runEvents_wm_le name jids es s,
    fun name jids w0 db0 es => runEvents_lastSuccess name jids w0 es _ rfl, ?_⟩
  intro name jids ok s pre m post hj hsplit hpre hm
  have hstep : pollStep name jids ok s =
      ⟨s.db, lastTs pre s.last_timestamp,
        s.calls ++ pre.map (fun x => (x, true)) ++ [(m, false)]⟩ := by
    unfold pollStep
    rw [if_neg hj, hsplit, runBatch_failAt ok pre _ _ m post hpre hm]
  exact ⟨hstep, by rw [hstep]; rfl⟩

/-- C2 witness: the theorem applied to a concrete run and to a concrete poll
cycle whose single message fails. -/
theorem C2_witness :
    (⟨emptyDB, [], []⟩ : LoopState).last_timestamp ≤
        (runEvents cexName cexJids cexTrace ⟨emptyDB, [], []⟩).last_timestamp ∧
      pollStep cexName cexJids (fun _ => false) witState =
        ⟨witState.db, lastTs [] witState.last_timestamp,
          witState.calls ++ [].map (fun x => (x, true)) ++ [(cexM5, false)]⟩ :=
  ⟨C2_watermark_monotone_lastSuccess.1 cexName cexJids cexTrace _,
    (C2_watermark_monotone_lastSuccess.2.2 cexName cexJids (fun _ => false)
      witState [] cexM5 [] (by decide) (by decide)
      (fun x hx => absurd hx (List.not_mem_nil x)) rfl).1⟩

-- === C9 ===

/-- C9.  In any run, every message ever presented to `process_message` by the
dispatch loop — successfully handled or not — does not start with the bot
reply marker: the query excludes such rows, so a stored bot reply is never
treated as a trigger-addressed query even if its text matches the trigger. -/
theorem C9_self_reply_never_presented (name : Str) (jids : List Str) (db0 : DB)
    (w0 : Str) (es : List Event) (p : Message × Bool)
    (hp : p ∈ (runEvents name jids es ⟨db0, w0, []⟩).calls) :
    (replyMark name).isPrefixOf p.1.content = false :=
  run_no_selfMark name jids es _ (fun q hq => absurd hq (List.not_mem_nil q)) p hp

/-- C9 witness: the theorem applied to a concrete run in which `cexM5` was
presented to the interpreter. -/
theorem C9_witness :
    (cexM5, true) ∈ (runEvents cexName cexJids cexTrace ⟨emptyDB, [], []⟩).calls ∧
      (replyMark cexName).isPrefixOf cexM5.content = false :=
  ⟨by decide,
    C9_self_reply_never_presented cexName cexJids emptyDB [] cexTrace
      (cexM5, true) (by decide)⟩

-- === helper lemmas: persona slicing and session table ===

theorem section_slices (A B C0 : Str) :
    ((A ++ MEM_MARK ++ B ++ SF_MARK ++ C0).take ((A ++ MEM_MARK ++ B).length)).drop
        (A.length + MEM_MARK.length) = B ∧
      (A ++ MEM_MARK ++ B ++ SF_MARK ++ C0).drop
        ((A ++ MEM_MARK ++ B).length + SF_MARK.length) = C0 := by
  have hassoc : A ++ MEM_MARK ++ B ++ SF_MARK ++ C0 =
      (A ++ MEM_MARK ++ B ++ SF_MARK) ++ C0 := rfl
  constructor
  · have h1 : A ++ MEM_MARK ++ B ++ SF_MARK ++ C0 =
        (A ++ MEM_MARK ++ B) ++ (SF_MARK ++ C0) := by
      rw [List.append_assoc (A ++ MEM_MARK ++ B) SF_MARK C0]
    rw [h1, List.take_left]
    have h2 : A ++ MEM_MARK ++ B = (A ++ MEM_MARK) ++ B := rfl
    rw [h2, ← List.length_append A MEM_MARK, List.drop_left]
  · have h3 : (A ++ MEM_MARK ++ B).length + SF_MARK.length =
        (A ++ MEM_MARK ++ B ++ SF_MARK).length := by
      rw [List.length_append (A ++ MEM_MARK ++ B) SF_MARK]
    rw [hassoc, h3, List.drop_left]

theorem lookup_eraseKey (l : List (Str × Str)) (k : Str) :
    (eraseKey l k).lookup k = none := by
  induction l with
  | nil => rfl
  | cons p l ih =>
    obtain ⟨a, b⟩ := p
    rw [eraseKey, List.filter_cons]
    by_cases ha : a = k
    · rw [if_neg (by simp [ha])]
      exact ih
    · rw [if_pos (by simp [ha])]
      have hbeq : (k == a) = false := beq_eq_false_iff_ne.mpr (fun h => ha h.symm)
      rw [List.lookup_cons, hbeq]
      exact ih

-- === fixtures for the interpreter claims ===

/-- Fixture: an engine oracle that always fails. -/
def wEngineFail : Str → Str → Option Str → AgentResponse :=
  fun _ _ _ => ⟨false, none, none, none⟩

/-- Fixture: one registered group. -/
def wGroups : List (Str × Group) :=
  [(str "family@g.us", ⟨str "Family", str "fam"⟩)]

/-- Fixture: a session table holding a token for the group folder. -/
def wSessions : List (Str × Str) := [(str "fam", str "sess-1")]

/-- Fixture: a reset command with surrounding whitespace and mixed case. -/
def wMsgClear : Message :=
  ⟨str "B1", str "family@g.us", str "u1", str "Ana", str " /Clear ",
    str "2024-01-01T11:00:00", false⟩

/-- Fixture: the trigger-stripping example message of the spec. -/
def wMsgAsst : Message :=
  ⟨str "B2", str "family@g.us", str "u1", str "Ana",
    str "@Assistant  what time is it?", str "2024-01-01T11:01:00", false⟩

/-- Fixture: a persona-update command. -/
def wMsgPers : Message :=
  ⟨str "B3", str "family@g.us", str "u1", str "Ana",
    str "/personality Be terse", str "2024-01-01T11:02:00", false⟩

/-- Fixture: a persona-update command with an empty argument. -/
def wMsgPersEmpty : Message :=
  ⟨str "B4", str "family@g.us", str "u1", str "Ana", str "/personality   ",
    str "2024-01-01T11:03:00", false⟩

/-- Fixture: persona document text before the Memories heading. -/
def wA : Str := str "# Assistant\n\nOld stuff\n\n"

/-- Fixture: Memories section body region. -/
def wB : Str := str "\nfoo\n\n"

/-- Fixture: Saved Files section body region. -/
def wC : Str := str "\nbar.txt — x\n"

/-- Fixture: a persona document with both sections. -/
def wDoc : Str := wA ++ MEM_MARK ++ wB ++ SF_MARK ++ wC

/-- Fixture: the file map holding the persona document of the group. -/
def wFiles : List (Str × Str) := [(str "fam", wDoc)]

-- === C4 ===

/-- C4.  When the reasoning engine invocation explicitly fails, or succeeds
with an empty result (`None` or the empty string — both falsy in
`response.success and response.result`), `process_message` sends exactly the
fixed generic apology, leaves the session table unchanged, records the single
engine call, runs no `save_state`, and returns normally — so the loop, whose
handler returned without raising, advances the watermark past the message
(final conjunct, the inner loop on a normally-returning handler). -/
theorem C4_engine_failure_apology (name : Str) (groups : List (Str × Group))
    (sessions files : List (Str × Str))
    (engine : Str → Str → Option Str → AgentResponse) (msg : Message) (g : Group)
    (hg : groups.lookup msg.chat_jid = some g)
    (hclear : ¬lowerStr (pyStrip msg.content) = CLEAR_COMMAND)
    (hpers : PERSONALITY_COMMAND.isPrefixOf (lowerStr (pyStrip msg.content)) = false)
    (htrig : triggerHit name (pyStrip msg.content) = true)
    (hne : (pyStrip ((pyStrip msg.content).drop (1 + name.length))).isEmpty = false)
    (hfail : (engine
        (build_prompt (pyStrip ((pyStrip msg.content).drop (1 + name.length)))
          msg.sender_name g.name) g.folder (sessions.lookup g.folder)).success = false ∨
      (engine
        (build_prompt (pyStrip ((pyStrip msg.content).drop (1 + name.length)))
          msg.sender_name g.name) g.folder (sessions.lookup g.folder)).result = none ∨
      (engine
        (build_prompt (pyStrip ((pyStrip msg.content).drop (1 + name.length)))
          msg.sender_name g.name) g.folder (sessions.lookup g.folder)).result = some []) :
    process_message name groups sessions files engine msg =
      ⟨sessions,
        (match files.lookup g.folder with
          | none => setKey files g.folder DEFAULT_CLAUDE_MD
          | some _ => files),
        [(msg.chat_jid,
          replyMark name ++ str " Sorry, I encountered an error. Please try again.")],
        [(build_prompt (pyStrip ((pyStrip msg.content).drop (1 + name.length)))
            msg.sender_name g.name, g.folder, sessions.lookup g.folder)],
        false⟩ ∧
      ∀ (wm : Str) (calls : List (Message × Bool)),
        runBatch (fun _ => true) wm calls [msg] =
          (msg.timestamp, calls ++ [(msg, true)]) := by
  have hresp : ((engine
      (build_prompt (pyStrip ((pyStrip msg.content).drop (1 + name.length)))
        msg.sender_name g.name) g.folder (sessions.lookup g.folder)).success &&
    truthy (engine
      (build_prompt (pyStrip ((pyStrip msg.content).drop (1 + name.length)))
        msg.sender_name g.name) g.folder (sessions.lookup g.folder)).result) = false := by
    rcases hfail with h | h | h
    · rw [h, Bool.false_and]
    · rw [h]
      exact Bool.and_false _
    · rw [h]
      exact Bool.and_false _
  exact ⟨pm_engine_fail hg hclear hpers htrig hne hresp, fun wm calls => rfl⟩

/-- C4 witness: the theorem applied to a concrete trigger query against an
always-failing engine. -/
theorem C4_witness :
    process_message cexName wGroups wSessions [] wEngineFail cexM5 =
      ⟨wSessions,
        (match ([] : List (Str × Str)).lookup (str "fam") with
          | none => setKey [] (str "fam") DEFAULT_CLAUDE_MD
          | some _ => ([] : List (Str × Str))),
        [(str "family@g.us",
          replyMark cexName ++ str " Sorry, I encountered an error. Please try again.")],
        [(build_prompt (str "hello") (str "Ana") (str "Family"), str "fam",
          some (str "sess-1"))],
        false⟩ :=
  (C4_engine_failure_apology cexName wGroups wSessions [] wEngineFail cexM5
    ⟨str "Family", str "fam"⟩ (by decide) (by decide) (by decide) (by decide)
    (by decide) (Or.inl rfl)).1

-- === C6 ===

/-- C6.  First conjunct: a persona-update command with non-empty new
instructions, against an existing document made of a prefix, a `## Memories`
section region and a `## Saved Files` section region (located by the first
occurrences of the two markers, as the Python `find` calls require), rewrites
the document to the fixed template whose instructions slot is exactly the new
instructions, whose Memories slot is exactly the stripped prior Memories body,
and whose Saved Files slot is exactly the stripped prior Saved Files body — so
both section bodies are preserved verbatim.  The session table, the reply, and
the absence of engine calls are pinned too.  Second conjunct: with an empty
argument the usage reply is sent and the files — the document included — are
left unchanged. -/
theorem C6_persona_update_preserves :
    (∀ (name : Str) (groups : List (Str × Group)) (sessions files : List (Str × Str))
      (engine : Str → Str → Option Str → AgentResponse) (msg : Message) (g : Group)
      (A B C0 : Str),
      groups.lookup msg.chat_jid = some g →
      PERSONALITY_COMMAND.isPrefixOf (lowerStr (pyStrip msg.content)) = true →
      (pyStrip ((pyStrip msg.content).drop PERSONALITY_COMMAND.length)).isEmpty
        = false →
      files.lookup g.folder = some (A ++ MEM_MARK ++ B ++ SF_MARK ++ C0) →
      findSub (A ++ MEM_MARK ++ B ++ SF_MARK ++ C0) MEM_MARK = some A.length →
      findSub (A ++ MEM_MARK ++ B ++ SF_MARK ++ C0) SF_MARK =
        some (A ++ MEM_MARK ++ B).length →
      process_message name groups sessions files engine msg =
        ⟨sessions,
          setKey files g.folder
            (personaHeader ++
              pyStrip ((pyStrip msg.content).drop PERSONALITY_COMMAND.length) ++
              personaMiddle ++ pyStrip B ++ personaSavedMark ++ pyStrip C0 ++
              str "\n"),
          [(msg.chat_jid, replyMark name ++ str " Personality updated!")],
          [], false⟩) ∧
    (∀ (name : Str) (groups : List (Str × Group)) (sessions files : List (Str × Str))
      (engine : Str → Str → Option Str → AgentResponse) (msg : Message) (g : Group),
      groups.lookup msg.chat_jid = some g →
      PERSONALITY_COMMAND.isPrefixOf (lowerStr (pyStrip msg.content)) = true →
      (pyStrip ((pyStrip msg.content).drop PERSONALITY_COMMAND.length)).isEmpty
        = true →
      process_message name groups sessions files engine msg =
        ⟨sessions, files,
          [(msg.chat_jid, replyMark name ++ str " Usage: /personality <instructions>")],
          [], false⟩) := by
  constructor
  · intro name groups sessions files engine msg g A B C0 hg hpers hne hdoc hfm hfs
    rw [pm_personality_update hg hpers hne hdoc hfm hfs,
      (section_slices A B C0).1, (section_slices A B C0).2]
    rfl
  · intro name groups sessions files engine msg g hg hpers hempty
    exact pm_personality_empty hg hpers hempty

/-- C6 witness: the theorem applied to the concrete document of the spec
example — Memories body `foo`, Saved Files body `bar.txt — x`, new
instructions `Be terse` — plus the empty-argument usage branch. -/
theorem C6_witness :
    findSub wDoc MEM_MARK = some wA.length ∧
      findSub wDoc SF_MARK = some (wA ++ MEM_MARK ++ wB).length ∧
      process_message cexName wGroups wSessions wFiles wEngineFail wMsgPers =
        ⟨wSessions,
          setKey wFiles (str "fam")
            (personaHeader ++ str "Be terse" ++ personaMiddle ++ str "foo" ++
              personaSavedMark ++ str "bar.txt — x" ++ str "\n"),
          [(str "family@g.us", replyMark cexName ++ str " Personality updated!")],
          [], false⟩ ∧
      process_message cexName wGroups wSessions wFiles wEngineFail wMsgPersEmpty =
        ⟨wSessions, wFiles,
          [(str "family@g.us",
            replyMark cexName ++ str " Usage: /personality <instructions>")],
          [], false⟩ :=
  ⟨by decide, by decide,
    C6_persona_update_preserves.1 cexName wGroups wSessions wFiles wEngineFail
      wMsgPers ⟨str "Family", str "fam"⟩ wA wB wC (by decide) (by decide)
      (by decide) (by decide) (by decide) (by decide),
    C6_persona_update_preserves.2 cexName wGroups wSessions wFiles wEngineFail
      wMsgPersEmpty ⟨str "Family", str "fam"⟩ (by decide) (by decide) (by decide)⟩

-- === C7 ===

/-- C7.  First conjunct: a registered-conversation message that is not a
command and does not match the trigger pattern (case-insensitive `@name`
anchored at the start of the stripped content, followed by a word boundary) is
ignored silently: no engine call, no send, no state change.  Second conjunct:
a trigger match whose remainder strips to empty is also ignored silently.
Third conjunct: the spec example — content `"@Assistant  what time is it?"`
with configured name `Assistant` — reaches the engine exactly once with the
stripped prompt content `"what time is it?"` passed to `build_prompt`. -/
theorem C7_trigger_check :
    (∀ (name : Str) (groups : List (Str × Group)) (sessions files : List (Str × Str))
      (engine : Str → Str → Option Str → AgentResponse) (msg : Message) (g : Group),
      groups.lookup msg.chat_jid = some g →
      ¬lowerStr (pyStrip msg.content) = CLEAR_COMMAND →
      PERSONALITY_COMMAND.isPrefixOf (lowerStr (pyStrip msg.content)) = false →
      triggerHit name (pyStrip msg.content) = false →
      process_message name groups sessions files engine msg =
        ⟨sessions, files, [], [], false⟩) ∧
    (∀ (name : Str) (groups : List (Str × Group)) (sessions files : List (Str × Str))
      (engine : Str → Str → Option Str → AgentResponse) (msg : Message) (g : Group),
      groups.lookup msg.chat_jid = some g →
      ¬lowerStr (pyStrip msg.content) = CLEAR_COMMAND →
      PERSONALITY_COMMAND.isPrefixOf (lowerStr (pyStrip msg.content)) = false →
      triggerHit name (pyStrip msg.content) = true →
      (pyStrip ((pyStrip msg.content).drop (1 + name.length))).isEmpty = true →
      process_message name groups sessions files engine msg =
        ⟨sessions, files, [], [], false⟩) ∧
    (∀ (groups : List (Str × Group)) (sessions files : List (Str × Str))
      (engine : Str → Str → Option Str → AgentResponse) (msg : Message) (g : Group),
      groups.lookup msg.chat_jid = some g →
      pyStrip msg.content = str "@Assistant  what time is it?" →
      (process_message (str "Assistant") groups sessions files engine msg).engineCalls =
        [(build_prompt (str "what time is it?") msg.sender_name g.name,
          g.folder, sessions.lookup g.folder)]) := by
  refine ⟨fun name groups sessions files engine msg g hg hclear hpers htrig =>
      pm_no_trigger hg hclear hpers htrig,
    fun name groups sessions files engine msg g hg hclear hpers htrig hempty =>
      pm_empty_prompt hg hclear hpers htrig hempty, ?_⟩
  intro groups sessions files engine msg g hg hcontent
  have h1 : ¬lowerStr (pyStrip msg.content) = CLEAR_COMMAND := by
    rw [hcontent]; decide
  have h2 : PERSONALITY_COMMAND.isPrefixOf (lowerStr (pyStrip msg.content)) = false := by
    rw [hcontent]; decide
  have h3 : triggerHit (str "Assistant") (pyStrip msg.content) = true := by
    rw [hcontent]; decide
  have h4 : (pyStrip ((pyStrip msg.content).drop
      (1 + (str "Assistant").length))).isEmpty = false := by
    rw [hcontent]; decide
  have h := @pm_engine_calls (str "Assistant") groups sessions files engine msg g
    hg h1 h2 h3 h4
  rw [hcontent] at h
  exact h

/-- C7 witness: the theorem applied to concrete non-matching, empty-remainder
and spec-example messages. -/
theorem C7_witness :
    process_message cexName wGroups wSessions [] wEngineFail wMsgAsst =
        ⟨wSessions, [], [], [], false⟩ ∧
      (process_message (str "Assistant") wGroups wSessions [] wEngineFail
          wMsgAsst).engineCalls =
        [(build_prompt (str "what time is it?") (str "Ana") (str "Family"),
          str "fam", some (str "sess-1"))] :=
  ⟨C7_trigger_check.1 cexName wGroups wSessions [] wEngineFail wMsgAsst
      ⟨str "Family", str "fam"⟩ (by decide) (by decide) (by decide) (by decide),
    C7_trigger_check.2.2 wGroups wSessions [] wEngineFail wMsgAsst
      ⟨str "Family", str "fam"⟩ (by decide) (by decide)⟩

-- === C8 ===

/-- C8.  First conjunct: a message whose stripped content is a
case-insensitive exact match of the reset literal, for a conversation holding
a session entry, deletes exactly that entry, runs `save_state`, sends the
confirmation reply, performs no engine call — and the resulting session table
has no token for the conversation.  Second conjunct: a subsequent
trigger-addressed query for a conversation with no session entry is dispatched
to the engine with continuation token `none`. -/
theorem C8_reset_round_trip :
    (∀ (name : Str) (groups : List (Str × Group)) (sessions files : List (Str × Str))
      (engine : Str → Str → Option Str → AgentResponse) (msg : Message) (g : Group),
      groups.lookup msg.chat_jid = some g →
      lowerStr (pyStrip msg.content) = CLEAR_COMMAND →
      (sessions.lookup g.folder).isSome = true →
      process_message name groups sessions files engine msg =
        ⟨eraseKey sessions g.folder, files,
          [(msg.chat_jid, replyMark name ++ str " Conversation cleared! Starting fresh.")],
          [], true⟩ ∧
      (eraseKey sessions g.folder).lookup g.folder = none) ∧
    (∀ (name : Str) (groups : List (Str × Group)) (sessions files : List (Str × Str))
      (engine : Str → Str → Option Str → AgentResponse) (msg : Message) (g : Group),
      groups.lookup msg.chat_jid = some g →
      sessions.lookup g.folder = none →
      ¬lowerStr (pyStrip msg.content) = CLEAR_COMMAND →
      PERSONALITY_COMMAND.isPrefixOf (lowerStr (pyStrip msg.content)) = false →
      triggerHit name (pyStrip msg.content) = true →
      (pyStrip ((pyStrip msg.content).drop (1 + name.length))).isEmpty = false →
      (process_message name groups sessions files engine msg).engineCalls =
        [(build_prompt (pyStrip ((pyStrip msg.content).drop (1 + name.length)))
            msg.sender_name g.name, g.folder, none)]) := by
  constructor
  · intro name groups sessions files engine msg g hg hc hsome
    refine ⟨?_, lookup_eraseKey sessions g.folder⟩
    rw [pm_clear hg hc, hsome, if_pos rfl]
  · intro name groups sessions files engine msg g hg hnone hclear hpers htrig hne
    rw [pm_engine_calls hg hclear hpers htrig hne, hnone]

/-- C8 witness: the theorem applied to a concrete mixed-case reset message
with an existing session entry, and to a concrete follow-up query with no
entry. -/
theorem C8_witness :
    (process_message cexName wGroups wSessions [] wEngineFail wMsgClear =
        ⟨eraseKey wSessions (str "fam"), [],
          [(str "family@g.us",
            replyMark cexName ++ str " Conversation cleared! Starting fresh.")],
          [], true⟩ ∧
      (eraseKey wSessions (str "fam")).lookup (str "fam") = none) ∧
      (process_message cexName wGroups [] [] wEngineFail cexM5).engineCalls =
        [(build_prompt (str "hello") (str "Ana") (str "Family"), str "fam", none)] :=
  ⟨C8_reset_round_trip.1 cexName wGroups wSessions [] wEngineFail wMsgClear
      ⟨str "Family", str "fam"⟩ (by decide) (by decide) (by decide),
    C8_reset_round_trip.2 cexName wGroups [] [] wEngineFail cexM5
      ⟨str "Family", str "fam"⟩ (by decide) (by decide) (by decide) (by decide)
      (by decide) (by decide)⟩

-- === C10 ===

/-- C10.  A reset command for a registered conversation with no session entry
still sends the confirmation reply, leaves the session table unchanged, and
runs no `save_state` — the code persists state in this branch only when an
entry existed and was deleted. -/
theorem C10_reset_without_entry (name : Str) (groups : List (Str × Group))
    (sessions files : List (Str × Str))
    (engine : Str → Str → Option Str → AgentResponse) (msg : Message) (g : Group)
    (hg : groups.lookup msg.chat_jid = some g)
    (hc : lowerStr (pyStrip msg.content) = CLEAR_COMMAND)
    (hnone : sessions.lookup g.folder = none) :
    process_message name groups sessions files engine msg =
      ⟨sessions, files,
        [(msg.chat_jid, replyMark name ++ str " Conversation cleared! Starting fresh.")],
        [], false⟩ := by
  rw [pm_clear hg hc, hnone]
  rfl

/-- C10 witness: the theorem applied to a concrete reset message with an empty
session table. -/
theorem C10_witness :
    process_message cexName wGroups [] [] wEngineFail wMsgClear =
      ⟨[], [],
        [(str "family@g.us",
          replyMark cexName ++ str " Conversation cleared! Starting fresh.")],
        [], false⟩ :=
  C10_reset_without_entry cexName wGroups [] [] wEngineFail wMsgClear
    ⟨str "Family", str "fam"⟩ (by decide) (by decide) (by decide)

end PyClaw

